import Mathlib

/-!
Verification development for `audios_profe.py` (repository SFToro/transcripciones).

The Python script parses a WhatsApp chat export line by line, groups attachment
files under the chat message that most recently preceded them ("temas"), persists
a resume state `{last_line, temas}` with pickle, and moves the grouped files into
per-topic folders under `profe/sorted`, skipping a file when a prospective
destination path already exists.

The definitions below are a shallow embedding of that script:
* the two regular expressions `PATTERN` and `FILENAME_PATTERN` are embedded as
  deterministic character-list parsers (the backtracking of both regexes is
  deterministic for these patterns, since every greedy sub-pattern is delimited
  by a character outside its character class);
* Python character classes are modelled on their ASCII fragment
  (`\d` as `Char.isDigit`, `\w` as alphanumeric-or-underscore, `\s` and
  `str.strip` whitespace as `Char.isWhitespace`);
* `pathlib` path arithmetic is modelled on strings: `a / b` is `a ++ "/" ++ b`,
  `.name` is the last `/`-separated component, `.suffix` and `.with_suffix`
  follow the CPython rule (the suffix is `name[i:]` for `i` the last index of
  `'.'` when `0 < i < name.length - 1`, else empty);
* the filesystem is the list of existing file paths; `shutil.move src dstDir`
  removes `src` and adds `dstDir ++ "/" ++ baseName src`, and raises when the
  source is absent (directory creation has no file-level effect and is dropped);
* uncaught Python exceptions are `Except.error` / explicit crash outcomes:
  `temas[-1]` on an empty list is `RunError.indexError`, a `shutil.move` with a
  missing source is `PlaceError.fileNotFound`.
-/

/-- The U+200E left-to-right mark that tags WhatsApp system lines
(`(‎)?` in `PATTERN`). -/
def markerChar : Char := '‎'

/-- ASCII fragment of Python's `\w` class: alphanumeric or underscore. -/
def isWordChar (c : Char) : Bool := c.isAlphanum || c = '_'

/-- ASCII fragment of Python's `[\w\s]` class used for the sender group. -/
def isWordSpace (c : Char) : Bool := isWordChar c || c.isWhitespace

/-- Does `pre` occur at the head of `s`? -/
def hasPre : List Char → List Char → Bool
  | [], _ => true
  | _ :: _, [] => false
  | a :: as, b :: bs => a = b && hasPre as bs

/-- Python's substring test `needle in s`. -/
def containsSub (needle : List Char) : List Char → Bool
  | [] => needle.isEmpty
  | c :: rest => hasPre needle (c :: rest) || containsSub needle rest

/-- Remove `pre` from the head of `s`, or fail. -/
def restAfterPre : List Char → List Char → Option (List Char)
  | [], s => some s
  | _ :: _, [] => none
  | a :: as, b :: bs => if a = b then restAfterPre as bs else none

/-- The literal `‎<attached: ` that `FILENAME_PATTERN` requires before the
captured filename. -/
def markerChars : List Char := markerChar :: "<attached: ".data

/-- Suffix of `cs` following the rightmost occurrence of `markerChars`
(the greedy leading `.*` of `FILENAME_PATTERN` picks the rightmost occurrence). -/
def lastMarkerRest : List Char → Option (List Char)
  | [] => none
  | c :: rest =>
    match lastMarkerRest rest with
    | some r => some r
    | none => restAfterPre markerChars (c :: rest)

/-- Split `cs` at its last `'>'`: returns the characters before and after it
(the greedy inner `(.*)` of `FILENAME_PATTERN` extends to the last `'>'`). -/
def splitLastGt : List Char → Option (List Char × List Char)
  | [] => none
  | c :: rest =>
    match splitLastGt rest with
    | some (l, r) => some (c :: l, r)
    | none => if c = '>' then some ([], rest) else none

/-- Embedding of `re.match(FILENAME_PATTERN, s)` for
`FILENAME_PATTERN = r".*‎<attached: (.*)>"`: the captured group, if the
pattern matches as a prefix of `s`. -/
def extractAttached (cs : List Char) : Option (List Char) :=
  match splitLastGt cs with
  | none => none
  | some (pre, _) => lastMarkerRest pre

/-- Python `str.strip()` on the ASCII whitespace fragment. -/
def stripWs (cs : List Char) : List Char :=
  ((cs.dropWhile Char.isWhitespace).reverse.dropWhile Char.isWhitespace).reverse

/-- Parse one-or-more digits (`\d+`), returning them and the rest. -/
def digits1 (cs : List Char) : Option (List Char × List Char) :=
  let ds := cs.takeWhile Char.isDigit
  if ds.isEmpty then none else some (ds, cs.dropWhile Char.isDigit)

/-- Consume one expected character. -/
def expectChar (c : Char) : List Char → Option (List Char)
  | [] => none
  | b :: bs => if b = c then some bs else none

/-- Result of a successful `re.match(PATTERN, line)`, with
`PATTERN = r"(‎)?\[(\d+/\d+/\d+), (\d+:\d+:\d+)\] ([\w\s]+): (.*)"`:
whether group 1 (the marker) participated, and the captured date, time, sender
and message texts. -/
structure ParsedLine where
  marker : Bool
  date : List Char
  time : List Char
  sender : List Char
  message : List Char
deriving DecidableEq

/-- Parse `\d+ sep \d+ sep \d+` (the date and time groups), returning the
captured text and the rest. The greedy `\d+` pieces are delimited by non-digit
characters, so no backtracking arises. -/
def parseTriple (sep : Char) (cs : List Char) : Option (List Char × List Char) :=
  match digits1 cs with
  | none => none
  | some (d1, r1) =>
    match expectChar sep r1 with
    | none => none
    | some r2 =>
      match digits1 r2 with
      | none => none
      | some (d2, r3) =>
        match expectChar sep r3 with
        | none => none
        | some r4 =>
          match digits1 r4 with
          | none => none
          | some (d3, r5) => some (d1 ++ sep :: d2 ++ sep :: d3, r5)

/-- Parse `([\w\s]+): ` (the sender group and its delimiter). The greedy class
run is delimited by `':'`, which is outside the class, so the maximal run is
the only possible match. -/
def parseSender (cs : List Char) : Option (List Char × List Char) :=
  let snd := cs.takeWhile isWordSpace
  if snd.isEmpty then none
  else
    match expectChar ':' (cs.dropWhile isWordSpace) with
    | none => none
    | some r1 =>
      match expectChar ' ' r1 with
      | none => none
      | some r2 => some (snd, r2)

/-- Embedding of `re.match(PATTERN, line)`. The match is anchored at the start
and need not span the whole line; the final `(.*)` stops at a newline. Every
greedy piece of the pattern is delimited by a character outside its class, so
this straight-line parser is equivalent to the backtracking regex. -/
def parsePattern (cs0 : List Char) : Option ParsedLine :=
  let mk : Bool × List Char :=
    match cs0 with
    | c :: rest => if c = markerChar then (true, rest) else (false, cs0)
    | [] => (false, cs0)
  match expectChar '[' mk.2 with
  | none => none
  | some cs1 =>
    match parseTriple '/' cs1 with
    | none => none
    | some (date, cs2) =>
      match expectChar ',' cs2 with
      | none => none
      | some cs3 =>
        match expectChar ' ' cs3 with
        | none => none
        | some cs4 =>
          match parseTriple ':' cs4 with
          | none => none
          | some (time, cs5) =>
            match expectChar ']' cs5 with
            | none => none
            | some cs6 =>
              match expectChar ' ' cs6 with
              | none => none
              | some cs7 =>
                match parseSender cs7 with
                | none => none
                | some (snd, cs8) =>
                  some ⟨mk.1, date, time, snd, cs8.takeWhile (· ≠ '\n')⟩

/-- The three classification outcomes of one log line (spec §4.1). -/
inductive MessageEvent where
  | content (title : String)
  | attachment (filename : String)
  | nonMatch
deriving DecidableEq

/-- Characters of the substring probes used by the grouping loop. -/
def omittedChars : List Char := "omitted".data

/-- Characters of the `"deleted"` probe of the content branch. -/
def deletedChars : List Char := "deleted".data

/-- Characters of the `"attached"` probe of the attachment branch. -/
def attachedChars : List Char := "attached".data

/-- Classification of one raw line, combining `re.match(PATTERN, line)` with the
two branch conditions of the grouping loop (lines 98–116 of the script):
a match with no marker whose message avoids `"omitted"`/`"deleted"` is a
Content message (its title is the message with `/` replaced by `_`); a match
with the marker whose message avoids `"omitted"` and contains `"attached"` is
an Attachment marker when `FILENAME_PATTERN` matches the stripped message;
everything else changes no state. The two branches of the script are mutually
exclusive because one requires the marker group empty and the other nonempty. -/
def classify (line : String) : MessageEvent :=
  match parsePattern line.data with
  | none => .nonMatch
  | some p =>
    if !p.marker && !containsSub omittedChars p.message
        && !containsSub deletedChars p.message then
      .content (String.mk (p.message.map fun c => if c = '/' then '_' else c))
    else if p.marker && !containsSub omittedChars p.message
        && containsSub attachedChars p.message then
      match extractAttached (stripWs p.message) with
      | some fn => .attachment (String.mk fn)
      | none => .nonMatch
    else .nonMatch

/-- One topic group: the dict `{"title": ..., "files": [...]}` of the script. -/
structure Tema where
  title : String
  files : List String
deriving DecidableEq

/-- The constant `paths.DUMP_DIR` (value taken from the example in the
script's own comment: `profe/.dump`). Its exact text is irrelevant to every
theorem below. -/
def DUMP_DIR : String := "profe/.dump"

/-- The constant `paths.PROFE_SORTED_DIR` (per the script's module comment:
`profe/sorted`). Its exact text is irrelevant to every theorem below. -/
def PROFE_SORTED_DIR : String := "profe/sorted"

/-- Python `a / b` on paths, modelled on strings. -/
def pathJoin (a b : String) : String := a ++ "/" ++ b

/-- The path `paths.DUMP_DIR / filename` appended for an attachment. -/
def dumpPath (fn : String) : String := pathJoin DUMP_DIR fn

/-- Append one file path to a tema's file list (`tema["files"].append(...)`). -/
def appendFile (p : String) (t : Tema) : Tema := ⟨t.title, t.files ++ [p]⟩

/-- Apply `f` to the last element of a list (`temas[-1]` mutation); identity on
the empty list (the caller handles that case separately). -/
def updateLast (f : Tema → Tema) : List Tema → List Tema
  | [] => []
  | [t] => [f t]
  | t :: ts => t :: updateLast f ts

/-- The uncaught Python exceptions of the grouping loop: `temas[-1]` raises
`IndexError` when `temas` is empty. -/
inductive RunError where
  | indexError
deriving DecidableEq

/-- One iteration of the grouping loop (lines 96–116): a Content message appends
a fresh tema, an Attachment marker appends the dump path to the files of
`temas[-1]` (raising `IndexError` when the list is empty), anything else leaves
the list unchanged. -/
def processLine (temas : List Tema) (line : String) : Except RunError (List Tema) :=
  match classify line with
  | .content title => .ok (temas ++ [⟨title, []⟩])
  | .attachment fn =>
    match temas with
    | [] => .error .indexError
    | _ :: _ => .ok (updateLast (appendFile (dumpPath fn)) temas)
  | .nonMatch => .ok temas

/-- The whole grouping loop over the new lines, starting from the working list
(the loaded `temas`); an uncaught exception aborts the remaining iterations. -/
def extendTemas : List Tema → List String → Except RunError (List Tema)
  | temas, [] => .ok temas
  | temas, l :: ls =>
    match processLine temas l with
    | .error e => .error e
    | .ok u => extendTemas u ls

/-- The filter of line 122: `[item for item in temas if item["files"]]`. -/
def keepNonEmpty (ts : List Tema) : List Tema := ts.filter fun t => !t.files.isEmpty

/-- The persisted resume state (`{"last_line": ..., "temas": ...}`). -/
structure ResumeState where
  lastLine : Nat
  temas : List Tema
deriving DecidableEq

/-- The state used when `pickle.pkl` does not exist: `temas = []`,
`LAST_LINE = 23`. -/
def initialState : ResumeState := ⟨23, []⟩

/-- Result of the parsing/persisting stage of one run. -/
inductive EngineResult where
  | noNewData
  | crashed (e : RunError)
  | finished (saved : ResumeState)
deriving DecidableEq

/-- The engine portion of one run (lines 92–132): exit when `LAST_LINE` equals
the line count; otherwise run the grouping loop over `lines[LAST_LINE:]`, set
`LAST_LINE = len(lines)`, filter out temas with empty file lists, and persist. -/
def runEngine (st : ResumeState) (lines : List String) : EngineResult :=
  if st.lastLine = lines.length then .noNewData
  else
    match extendTemas st.temas (lines.drop st.lastLine) with
    | .error e => .crashed e
    | .ok ts => .finished ⟨lines.length, keepNonEmpty ts⟩

/-- The last `/`-separated component of a path (`pathlib`'s `.name` for the
paths built by the script, none of which end in `/`). -/
def baseNameCs (cs : List Char) : List Char :=
  (cs.reverse.takeWhile (· ≠ '/')).reverse

/-- String version of `baseNameCs`. -/
def baseName (p : String) : String := String.mk (baseNameCs p.data)

/-- CPython's `PurePath.suffix` on a file name: `name[i:]` for `i` the last
index of `'.'`, provided `0 < i < name.length - 1`, else empty. -/
def nameSuffixCs (name : List Char) : List Char :=
  let after := name.reverse.takeWhile (· ≠ '.')
  if after.length = name.length then []
  else if after.length = 0 then []
  else if name.length - after.length - 1 = 0 then []
  else '.' :: after.reverse

/-- Python `PurePath.suffix` of a whole path: the suffix of its name. -/
def pathSuffix (p : String) : String := String.mk (nameSuffixCs (baseNameCs p.data))

/-- CPython's `PurePath.with_suffix` at the file-name level: drop the old
suffix (if any) and append the new one. -/
def withSuffixCs (name suf : List Char) : List Char :=
  name.take (name.length - (nameSuffixCs name).length) ++ suf

/-- The characters of the replacement extension `".wav"` used at line 145. -/
def wavChars : List Char := ".wav".data

/-- The prospective destination path computed by the placement loop
(lines 141–146): `PROFE_SORTED_DIR / title / file.name`, except that when that
path's suffix is `.ogg` or `.opus` the name is replaced by
`file.with_suffix(".wav").name`. -/
def prospectivePath (title file : String) : String :=
  let nm := baseNameCs file.data
  let p := pathJoin (pathJoin PROFE_SORTED_DIR title) (String.mk nm)
  if pathSuffix p = ".ogg" || pathSuffix p = ".opus" then
    pathJoin (pathJoin PROFE_SORTED_DIR title) (String.mk (withSuffixCs nm wavChars))
  else p

/-- The uncaught exception of the placement loop: `shutil.move` raises
`FileNotFoundError` when the source path does not exist. -/
inductive PlaceError where
  | fileNotFound (src : String)
deriving DecidableEq

/-- Effect of `shutil.move(src, dstDir)` on the set of existing files: the
source disappears and `dstDir/baseName src` appears. -/
def moveTo (fs : List String) (src dstDir : String) : List String :=
  fs.erase src ++ [pathJoin dstDir (baseName src)]

/-- Placement of one attachment (lines 141–152): skip when the prospective
destination exists; otherwise move the source into the topic folder (keeping
its original name), raising when the source is missing. -/
def placeOne (title : String) (fs : List String) (file : String) :
    Except PlaceError (List String) :=
  if prospectivePath title file ∈ fs then .ok fs
  else if file ∈ fs then .ok (moveTo fs file (pathJoin PROFE_SORTED_DIR title))
  else .error (.fileNotFound file)

/-- Placement of the files of one tema, threading the filesystem; an exception
stops the remaining files and reports the filesystem reached so far. -/
def placeFiles (title : String) : List String → List String →
    List String × Option PlaceError
  | fs, [] => (fs, none)
  | fs, f :: rest =>
    match placeOne title fs f with
    | .error e => (fs, some e)
    | .ok fs' => placeFiles title fs' rest

/-- The placement pass over every tema (lines 134–152); an exception in one
tema stops all remaining temas. -/
def placeTemas : List String → List Tema → List String × Option PlaceError
  | fs, [] => (fs, none)
  | fs, t :: rest =>
    match placeFiles t.title fs t.files with
    | (fs', none) => placeTemas fs' rest
    | (fs', some e) => (fs', some e)

/-- The inputs of one whole run of the script: whether
`ZIP_SOURCE_DIR.glob("*profe.zip")` is nonempty, whether `CHAT_FILE` exists
after extraction, the chat lines, the persisted pickle (if any), and the set
of existing attachment files. -/
structure World where
  zipsPresent : Bool
  chatExists : Bool
  chatLines : List String
  pickle : Option ResumeState
  files : List String
deriving DecidableEq

/-- How one run of the script ends. -/
inductive RunOutcome where
  | missingZips
  | missingChat
  | noNewData
  | groupingCrash (e : RunError)
  | placementCrash (e : PlaceError)
  | done
deriving DecidableEq

/-- Result of one run: the outcome, the pickle on disk afterwards, and the
files on disk afterwards. -/
structure RunResult where
  outcome : RunOutcome
  pickle : Option ResumeState
  files : List String
deriving DecidableEq

/-- One whole run of `audios_profe.py` through the placement pass: the early
`sys.exit` when no `*profe.zip` matches (line 52) or the chat file is missing
(line 70), the pickle load with its defaults (lines 82–90), the no-new-lines
exit (line 92), the grouping loop, the filter and pickle save (lines 118–132,
before any placement side effect), and the placement pass. The opus/ogg
conversion stage that follows placement in the script is modelled separately
as `convertStage` because its implementation is outside this repository's
sources. -/
def runScript (w : World) : RunResult :=
  if !w.zipsPresent then ⟨.missingZips, w.pickle, w.files⟩
  else if !w.chatExists then ⟨.missingChat, w.pickle, w.files⟩
  else
    let st := w.pickle.getD initialState
    if st.lastLine = w.chatLines.length then ⟨.noNewData, w.pickle, w.files⟩
    else
      match extendTemas st.temas (w.chatLines.drop st.lastLine) with
      | .error e => ⟨.groupingCrash e, w.pickle, w.files⟩
      | .ok ts =>
        let saved : ResumeState := ⟨w.chatLines.length, keepNonEmpty ts⟩
        match placeTemas w.files saved.temas with
        | (fs', none) => ⟨.done, some saved, fs'⟩
        | (fs', some e) => ⟨.placementCrash e, some saved, fs'⟩

/-- Modelled from the spec: the transcoding collaborator
`utils.opus_to_mp3.convert_opus_to_mp3` is not under `src/`. The spec's own
words fix its output extension: §4.4 makes the planner's rewritten extension
"the post-conversion extension" — the predicted *converted* name — the §8
example has the planner recognise that post-conversion destination on a
re-run, and the §9 design note mandates preserving exactly that
post-conversion check; the in-repository consumer `transcribir.py` reads the
placed corpus via `PROFE_SORTED_DIR.glob` of `**/*.wav` and lists transcribed
sorted folders. The converted sibling therefore carries the extension `.wav`,
the extension the placement check of line 145 predicts; the collaborator's
name is stale on this point. -/
def POST_CONVERSION_SUFFIX : List Char := ".wav".data

/-- The path written by the transcoding collaborator for a given source path:
same directory, name with the post-conversion extension. -/
def convertedPath (p : String) : String :=
  let nm := baseNameCs p.data
  String.mk (p.data.take (p.data.length - nm.length) ++ withSuffixCs nm POST_CONVERSION_SUFFIX)

/-- Does the path lie under `PROFE_SORTED_DIR` (the `rglob` of lines 159-161)? -/
def inSorted (p : String) : Bool := hasPre (PROFE_SORTED_DIR ++ "/").data p.data

/-- Is the path picked up by the conversion loop's `*.opus` / `*.ogg` globs? -/
def isConvertible (p : String) : Bool :=
  pathSuffix p = ".opus" || pathSuffix p = ".ogg"

/-- The conversion stage (lines 155–167): every opus/ogg file under the sorted
directory is replaced by its converted sibling (`convert_opus_to_mp3` then
`file.unlink()`). -/
def convertStage (fs : List String) : List String :=
  fs.map fun f => if inSorted f && isConvertible f then convertedPath f else f

/-- Propositional equality on `Except` values is decidable when it is on both
components; used only to evaluate the embedding on concrete inputs. -/
instance {e a : Type} [DecidableEq e] [DecidableEq a] : DecidableEq (Except e a)
  | .error x, .error y =>
    if h : x = y then .isTrue (congrArg Except.error h)
    else .isFalse fun hx => h (by injection hx)
  | .error _, .ok _ => .isFalse fun hx => Except.noConfusion hx
  | .ok _, .error _ => .isFalse fun hx => Except.noConfusion hx
  | .ok x, .ok y =>
    if h : x = y then .isTrue (congrArg Except.ok h)
    else .isFalse fun hx => h (by injection hx)

/-- Example Content line from the spec's worked example. -/
def lineTopic1 : String := "[1/1/24, 10:00:00] Ana: Lecture notes\n"

/-- Example Attachment line from the spec's worked example. -/
def lineAtt1 : String := "‎[1/1/24, 10:00:05] Ana: ‎<attached: note1.opus>\n"

/-- A second example Content line. -/
def lineTopic2 : String := "[1/1/24, 10:00:10] Ana: Other topic\n"

/-- A second example Attachment line. -/
def lineAtt2 : String := "‎[1/1/24, 10:00:15] Ana: ‎<attached: note2.opus>\n"

/-- A marker line whose outer grammar matches (marker present, message contains
`attached`) but whose `<attached: NAME>` sub-pattern fails: no closing `>`. -/
def lineAttBroken : String := "‎[1/1/24, 10:00:20] Ana: ‎<attached: broken\n"

/-- Twenty-three filler lines standing for the chat-export header that the
script's initial `LAST_LINE = 23` skips. -/
def headerLines : List String := List.replicate 23 "\n"

/-- A log whose final line opens a topic that has not yet received a file. -/
def exFirstPart : List String := headerLines ++ [lineTopic1, lineAtt1, lineTopic2]

/-- The same log grown by one attachment line. -/
def exFullLog : List String := headerLines ++ [lineTopic1, lineAtt1, lineTopic2, lineAtt2]

/-- A log ending right after an attachment (its last topic is nonempty). -/
def exFirstTwo : List String := headerLines ++ [lineTopic1, lineAtt1]

/-- The two lines appended to `exFirstTwo` to form the full example log. -/
def exLastTwo : List String := [lineTopic2, lineAtt2]

/-- The topic group built from `lineTopic1` and `lineAtt1`. -/
def temaLecture : Tema := ⟨"Lecture notes", ["profe/.dump/note1.opus"]⟩

/-- A world for a complete first run over `exFirstTwo`. -/
def exRunWorld : World := ⟨true, true, exFirstTwo, none, ["profe/.dump/note1.opus"]⟩

/-- The world as the script leaves it after running on `exRunWorld`:
same log, the persisted pickle, the moved file. -/
def exSecondWorld : World :=
  ⟨true, true, exFirstTwo, some ⟨25, [temaLecture]⟩,
   ["profe/sorted/Lecture notes/note1.opus"]⟩

/-- A world like `exRunWorld` but with the default resume state written
explicitly into the pickle. -/
def exResumedWorld : World :=
  ⟨true, true, exFirstTwo, some ⟨23, []⟩, ["profe/.dump/note1.opus"]⟩

/-- Relation stating that `ts` extends `prior` the way the grouping loop can: `prior`'s elements are
carried forward unchanged, except that the final one may have gained appended
files, and new temas may follow. -/
def Carried (prior ts : List Tema) : Prop :=
  ∃ fs tail, (prior = [] ∧ ts = tail) ∨
    ∃ pre final, prior = pre ++ [final] ∧
      ts = pre ++ ⟨final.title, final.files ++ fs⟩ :: tail

/-- A working list that ends (if at all) in a tema that already has a file;
continuing such a list after filtering is indistinguishable from continuing
the unfiltered list. -/
def GoodBase (base : List Tema) : Prop :=
  base = [] ∨ ∃ pre final, base = pre ++ [final] ∧ final.files ≠ []

/-- Two grouping-loop results agree up to the end-of-run filter: both raise the
same exception, or both succeed with lists that filter to the same output. -/
def FilterAgree (r₁ r₂ : Except RunError (List Tema)) : Prop :=
  (∃ e, r₁ = .error e ∧ r₂ = .error e) ∨
  (∃ u₁ u₂, r₁ = .ok u₁ ∧ r₂ = .ok u₂ ∧ keepNonEmpty u₁ = keepNonEmpty u₂)

/-! Helper lemmas about the grouping loop. -/

theorem extendTemas_cons (t : List Tema) (l : String) (ls : List String) :
    extendTemas t (l :: ls) =
      match processLine t l with
      | .error e => .error e
      | .ok u => extendTemas u ls := rfl

theorem extendTemas_append (xs ys : List String) : ∀ t,
    extendTemas t (xs ++ ys) =
      match extendTemas t xs with
      | .error e => .error e
      | .ok u => extendTemas u ys := by
  induction xs with
  | nil => intro t; rfl
  | cons l xs ih =>
    intro t
    show extendTemas t (l :: (xs ++ ys)) = _
    rw [extendTemas_cons, extendTemas_cons]
    cases h : processLine t l with
    | error e => rfl
    | ok u => exact ih u

theorem processLine_attachment_nil {line fn} (h : classify line = .attachment fn) :
    processLine [] line = .error .indexError := by
  rw [processLine, h]

theorem processLine_attachment_cons {line fn} (temas : List Tema)
    (h : classify line = .attachment fn) (hne : temas ≠ []) :
    processLine temas line = .ok (updateLast (appendFile (dumpPath fn)) temas) := by
  cases temas with
  | nil => exact absurd rfl hne
  | cons t ts => rw [processLine, h]

theorem updateLast_append (f : Tema → Tema) (a b : List Tema) (hb : b ≠ []) :
    updateLast f (a ++ b) = a ++ updateLast f b := by
  induction a with
  | nil => rfl
  | cons t a ih =>
    cases hab : a ++ b with
    | nil => exact absurd (List.append_eq_nil.mp hab).2 hb
    | cons y ys =>
      show updateLast f (t :: (a ++ b)) = t :: (a ++ updateLast f b)
      rw [hab, updateLast, ← hab, ih]
      simp

theorem updateLast_concat (f : Tema → Tema) (a : List Tema) (x : Tema) :
    updateLast f (a ++ [x]) = a ++ [f x] := by
  rw [updateLast_append f a [x] (by simp)]
  rfl

theorem keepNonEmpty_append (a b : List Tema) :
    keepNonEmpty (a ++ b) = keepNonEmpty a ++ keepNonEmpty b := by
  simp [keepNonEmpty, List.filter_append]

theorem keepNonEmpty_idem (ts : List Tema) :
    keepNonEmpty (keepNonEmpty ts) = keepNonEmpty ts := by
  simp [keepNonEmpty, List.filter_filter]

theorem processLine_content {line : String} {title : String} (temas : List Tema)
    (h : classify line = .content title) :
    processLine temas line = .ok (temas ++ [⟨title, []⟩]) := by
  rw [processLine, h]

theorem processLine_nonMatch {line : String} (temas : List Tema)
    (h : classify line = .nonMatch) :
    processLine temas line = .ok temas := by
  rw [processLine, h]

theorem carried_refl (ts : List Tema) : Carried ts ts := by
  rcases List.eq_nil_or_concat ts with rfl | ⟨pre, x, rfl⟩
  · exact ⟨[], [], Or.inl ⟨rfl, rfl⟩⟩
  · exact ⟨[], [], Or.inr ⟨pre, x, by simp, by simp⟩⟩

theorem carried_step {p q q' : List Tema} {l : String}
    (hc : Carried p q) (hs : processLine q l = .ok q') : Carried p q' := by
  obtain ⟨fs, tail, hcase⟩ := hc
  cases hcl : classify l with
  | content title =>
    rw [processLine_content q hcl] at hs
    injection hs with hq'
    rcases hcase with ⟨hp, hq⟩ | ⟨pre, fin, hp, hq⟩
    · exact ⟨fs, tail ++ [⟨title, []⟩], Or.inl ⟨hp, by rw [← hq', hq]⟩⟩
    · exact ⟨fs, tail ++ [⟨title, []⟩], Or.inr ⟨pre, fin, hp, by rw [← hq', hq]; simp⟩⟩
  | nonMatch =>
    rw [processLine_nonMatch q hcl] at hs
    injection hs with hq'
    exact ⟨fs, tail, by rw [← hq']; exact hcase⟩
  | attachment fn =>
    cases hq0 : q with
    | nil =>
      rw [hq0, processLine_attachment_nil hcl] at hs
      exact absurd hs (by simp)
    | cons q0 qs =>
      have hne : q ≠ [] := by rw [hq0]; simp
      rw [processLine_attachment_cons q hcl hne] at hs
      injection hs with hq'
      rcases hcase with ⟨hp, hq⟩ | ⟨pre, fin, hp, hq⟩
      · exact ⟨fs, q', Or.inl ⟨hp, rfl⟩⟩
      · cases tail with
        | nil =>
          refine ⟨fs ++ [dumpPath fn], [], Or.inr ⟨pre, fin, hp, ?_⟩⟩
          rw [← hq', hq, updateLast_concat]
          simp [appendFile]
        | cons t0 ts0 =>
          refine ⟨fs, updateLast (appendFile (dumpPath fn)) (t0 :: ts0),
            Or.inr ⟨pre, fin, hp, ?_⟩⟩
          rw [← hq', hq]
          rw [show pre ++ (⟨fin.title, fin.files ++ fs⟩ : Tema) :: t0 :: ts0
              = (pre ++ [(⟨fin.title, fin.files ++ fs⟩ : Tema)]) ++ (t0 :: ts0) from by simp]
          rw [updateLast_append _ _ _ (by simp)]
          simp

theorem extend_carried (window : List String) : ∀ p q ts, Carried p q →
    extendTemas q window = .ok ts → Carried p ts := by
  induction window with
  | nil =>
    intro p q ts hc h
    injection h with h
    rw [← h]; exact hc
  | cons l rest ih =>
    intro p q ts hc h
    rw [extendTemas_cons] at h
    cases hs : processLine q l with
    | error e => rw [hs] at h; exact absurd h (by simp)
    | ok u => rw [hs] at h; exact ih p u ts (carried_step hc hs) h

theorem keepNonEmpty_singleton {t : Tema} (h : t.files ≠ []) :
    keepNonEmpty [t] = [t] := by
  cases hf : t.files with
  | nil => exact absurd hf h
  | cons a as => simp [keepNonEmpty, List.filter_cons, hf]

theorem filter_agree (S : List String) : ∀ base tail, GoodBase base →
    FilterAgree (extendTemas (base ++ tail) S)
      (extendTemas (keepNonEmpty base ++ tail) S) := by
  induction S with
  | nil =>
    intro base tail _
    refine Or.inr ⟨_, _, rfl, rfl, ?_⟩
    rw [keepNonEmpty_append, keepNonEmpty_append, keepNonEmpty_idem]
  | cons l S ih =>
    intro base tail hgood
    rw [extendTemas_cons, extendTemas_cons]
    cases hcl : classify l with
    | content title =>
      rw [processLine_content _ hcl, processLine_content _ hcl]
      rw [List.append_assoc, List.append_assoc]
      exact ih base (tail ++ [⟨title, []⟩]) hgood
    | nonMatch =>
      rw [processLine_nonMatch _ hcl, processLine_nonMatch _ hcl]
      exact ih base tail hgood
    | attachment fn =>
      cases tail with
      | cons t0 ts0 =>
        rw [processLine_attachment_cons _ hcl (by simp),
          processLine_attachment_cons _ hcl (by simp)]
        rw [updateLast_append _ _ _ (by simp), updateLast_append _ _ _ (by simp)]
        exact ih base (updateLast (appendFile (dumpPath fn)) (t0 :: ts0)) hgood
      | nil =>
        rcases hgood with rfl | ⟨pre, fin, rfl, hfin⟩
        · rw [show (([] : List Tema) ++ []) = ([] : List Tema) from rfl]
          rw [show (keepNonEmpty [] ++ []) = ([] : List Tema) from rfl]
          rw [processLine_attachment_nil hcl]
          exact Or.inl ⟨.indexError, rfl, rfl⟩
        · have hkeep : keepNonEmpty (pre ++ [fin]) = keepNonEmpty pre ++ [fin] := by
            rw [keepNonEmpty_append, keepNonEmpty_singleton hfin]
          simp only [List.append_nil]
          rw [processLine_attachment_cons _ hcl (by simp),
            processLine_attachment_cons _ hcl (by rw [hkeep]; simp)]
          rw [updateLast_concat, hkeep, updateLast_concat]
          have hg' : GoodBase (pre ++ [appendFile (dumpPath fn) fin]) :=
            Or.inr ⟨pre, _, rfl, by simp [appendFile]⟩
          have hih := ih (pre ++ [appendFile (dumpPath fn) fin]) [] hg'
          simp only [List.append_nil] at hih
          rw [keepNonEmpty_append,
            keepNonEmpty_singleton (by simp [appendFile])] at hih
          exact hih

theorem drop_append_le {α : Type} (n : Nat) (xs ys : List α) (h : n ≤ xs.length) :
    (xs ++ ys).drop n = xs.drop n ++ ys := by
  induction xs generalizing n with
  | nil =>
    have : n = 0 := Nat.le_zero.mp h
    simp [this]
  | cons x xs ih =>
    cases n with
    | zero => rfl
    | succ n =>
      show (xs ++ ys).drop n = xs.drop n ++ ys
      exact ih n (Nat.le_of_succ_le_succ h)

theorem runScript_nonew (w : World)
    (h : (w.pickle.getD initialState).lastLine = w.chatLines.length) :
    (runScript w).pickle = w.pickle ∧ (runScript w).files = w.files ∧
    (w.zipsPresent = true → w.chatExists = true →
      (runScript w).outcome = .noNewData) := by
  cases hz : w.zipsPresent <;> cases hc : w.chatExists <;>
    simp [runScript, hz, hc, h]

theorem runScript_run (w : World) (st : ResumeState) (ts : List Tema)
    (hz : w.zipsPresent = true) (hc : w.chatExists = true)
    (hpk : w.pickle = some st)
    (hne : st.lastLine ≠ w.chatLines.length)
    (hE : extendTemas st.temas (w.chatLines.drop st.lastLine) = .ok ts) :
    (runScript w).pickle = some ⟨w.chatLines.length, keepNonEmpty ts⟩ ∧
    (runScript w).files = (placeTemas w.files (keepNonEmpty ts)).1 := by
  rw [runScript]
  simp only [hz, hc, hpk, Option.getD_some, Bool.not_true]
  rw [if_neg (by simp)]
  rw [if_neg (by simp)]
  rw [if_neg hne, hE]
  cases hp : placeTemas w.files (keepNonEmpty ts) with
  | mk fs' err =>
    cases err with
    | none => simp [hp]
    | some e => simp [hp]

theorem runScript_persist (w : World)
    (h : (runScript w).outcome = .done ∨
      ∃ e, (runScript w).outcome = .placementCrash e) :
    ∃ ts, (runScript w).pickle = some ⟨w.chatLines.length, keepNonEmpty ts⟩ ∧
      (runScript w).files = (placeTemas w.files (keepNonEmpty ts)).1 := by
  cases hz : w.zipsPresent with
  | false =>
    rw [runScript] at h; simp [hz] at h
  | true =>
    cases hc : w.chatExists with
    | false =>
      rw [runScript] at h; simp [hz, hc] at h
    | true =>
      by_cases hl : (w.pickle.getD initialState).lastLine = w.chatLines.length
      · rw [runScript] at h; simp [hz, hc, hl] at h
      · cases hE : extendTemas (w.pickle.getD initialState).temas
            (w.chatLines.drop (w.pickle.getD initialState).lastLine) with
        | error e =>
          rw [runScript] at h
          simp [hz, hc, hl, hE] at h
        | ok ts =>
          refine ⟨ts, ?_⟩
          rw [runScript]
          simp only [hz, hc, Bool.not_true]
          rw [if_neg (by simp), if_neg (by simp), if_neg hl, hE]
          cases hp : placeTemas w.files (keepNonEmpty ts) with
          | mk fs' err => cases err with
            | none => simp [hp]
            | some e => simp [hp]

theorem mem_takeWhile_pred (p : Char → Bool) :
    ∀ (l : List Char) (c : Char), c ∈ l.takeWhile p → p c = true := by
  intro l
  induction l with
  | nil => intro c hc; simp [List.takeWhile] at hc
  | cons a as ih =>
    intro c hc
    cases hpa : p a with
    | false => rw [List.takeWhile_cons, hpa] at hc; simp at hc
    | true =>
      rw [List.takeWhile_cons, hpa] at hc
      simp only [if_true] at hc
      rcases List.mem_cons.mp hc with rfl | hc
      · exact hpa
      · exact ih c hc

theorem takeWhile_append_stop (p : Char → Bool) (l1 : List Char) (x : Char)
    (l2 : List Char) (h1 : ∀ c ∈ l1, p c = true) (h2 : p x = false) :
    (l1 ++ x :: l2).takeWhile p = l1 := by
  induction l1 with
  | nil => simp [List.takeWhile_cons, h2]
  | cons c cs ih =>
    have hc : p c = true := h1 c (by simp)
    simp only [List.cons_append, List.takeWhile_cons, hc, if_true]
    rw [ih (fun d hd => h1 d (by simp [hd]))]

theorem baseNameCs_no_slash (cs : List Char) : ∀ c ∈ baseNameCs cs, c ≠ '/' := by
  intro c hc
  rw [baseNameCs, List.mem_reverse] at hc
  simpa using mem_takeWhile_pred _ _ _ hc

theorem baseNameCs_concat (pre nm : List Char) (h : ∀ c ∈ nm, c ≠ '/') :
    baseNameCs (pre ++ '/' :: nm) = nm := by
  rw [baseNameCs]
  have hrev : (pre ++ '/' :: nm).reverse = nm.reverse ++ '/' :: pre.reverse := by
    simp
  rw [hrev, takeWhile_append_stop _ _ _ _
    (fun c hc => by simpa using h c (List.mem_reverse.mp hc)) (by simp),
    List.reverse_reverse]

theorem string_eq_of_data {a b : String} (h : a.data = b.data) : a = b := by
  cases a; cases b; exact congrArg String.mk h

theorem data_pathJoin (a b : String) :
    (pathJoin a b).data = a.data ++ '/' :: b.data := by
  simp [pathJoin, String.data_append]

theorem convertedPath_pathJoin (base : String) (nm : List Char)
    (h : ∀ c ∈ nm, c ≠ '/') :
    convertedPath (pathJoin base (String.mk nm))
      = pathJoin base (String.mk (withSuffixCs nm POST_CONVERSION_SUFFIX)) := by
  have hdata : (pathJoin base (String.mk nm)).data = base.data ++ '/' :: nm :=
    data_pathJoin base (String.mk nm)
  have hbase : baseNameCs (pathJoin base (String.mk nm)).data = nm := by
    rw [hdata]; exact baseNameCs_concat base.data nm h
  apply string_eq_of_data
  have hlen : (base.data ++ '/' :: nm).length - nm.length = base.data.length + 1 := by
    simp; omega
  have htake : (base.data ++ '/' :: nm).take (base.data.length + 1)
      = base.data ++ ['/'] := by
    rw [show base.data ++ '/' :: nm = (base.data ++ ['/']) ++ nm by simp]
    exact List.take_left' (by simp)
  simp only [convertedPath, hdata]
  rw [baseNameCs_concat base.data nm h, hlen, htake, data_pathJoin]
  simp

/-! The claims. -/

/-- C1, counterexample. The claim says an Attachment marker is dropped when no
Content message has been opened in the current run's window, and is never
appended to a topic group loaded from a previous run's persisted state. On the
code, an attachment line processed with a loaded working list and no new
Content message is appended to the loaded topic `Old`, and with an empty
working list the `temas[-1]` access raises `IndexError` instead of dropping. -/
theorem C1_counterexample :
    extendTemas [⟨"Old", ["profe/.dump/f0.opus"]⟩] [lineAtt1]
      = .ok [⟨"Old", ["profe/.dump/f0.opus", "profe/.dump/note1.opus"]⟩] ∧
    extendTemas [] [lineAtt1] = .error .indexError :=
  ⟨by decide, by decide⟩

/-- C1 (amended): each Attachment marker is appended to the topic group that is
last in the accumulated working list at that point — the topic opened by the
nearest preceding Content message of the window when one exists, and otherwise
the last topic group loaded from the previous run's persisted state; when the
working list is empty the run raises `IndexError` rather than dropping the
attachment. -/
theorem C1_attachment_goes_to_last
    (prior : List Tema) (w : List String) (line fn : String) (ts : List Tema)
    (hc : classify line = .attachment fn)
    (hw : extendTemas prior w = .ok ts) :
    (ts = [] → extendTemas prior (w ++ [line]) = .error .indexError) ∧
    (ts ≠ [] → extendTemas prior (w ++ [line]) =
      .ok (updateLast (appendFile (dumpPath fn)) ts)) := by
  have hsplit : extendTemas prior (w ++ [line]) = extendTemas ts [line] := by
    rw [extendTemas_append, hw]
  constructor
  · intro h0
    subst h0
    rw [hsplit, extendTemas_cons, processLine_attachment_nil hc]
  · intro h0
    rw [hsplit, extendTemas_cons, processLine_attachment_cons ts hc h0]
    rfl

/-- C1, witness for the amended theorem at a concrete input. -/
theorem C1_attachment_goes_to_last_witness :
    extendTemas [⟨"Old", ["profe/.dump/f0.opus"]⟩] ([] ++ [lineAtt2])
      = .ok (updateLast (appendFile (dumpPath "note2.opus"))
          [⟨"Old", ["profe/.dump/f0.opus"]⟩]) :=
  (C1_attachment_goes_to_last [⟨"Old", ["profe/.dump/f0.opus"]⟩] [] lineAtt2
    "note2.opus" [⟨"Old", ["profe/.dump/f0.opus"]⟩] (by decide) rfl).2 (by decide)

/-- C2, counterexample. Splitting `exFullLog` just before its final attachment
line: the prefix run discards the still-empty topic `Other topic`, so the
resumed run attaches `note2.opus` to `Lecture notes`, while the single run
attaches it to `Other topic`; the final topic groups differ. -/
theorem C2_counterexample :
    runEngine initialState exFirstPart
      = .finished ⟨26, [⟨"Lecture notes", ["profe/.dump/note1.opus"]⟩]⟩ ∧
    runEngine ⟨26, [⟨"Lecture notes", ["profe/.dump/note1.opus"]⟩]⟩ exFullLog
      = .finished ⟨27, [⟨"Lecture notes",
          ["profe/.dump/note1.opus", "profe/.dump/note2.opus"]⟩]⟩ ∧
    runEngine initialState exFullLog
      = .finished ⟨27, [⟨"Lecture notes", ["profe/.dump/note1.opus"]⟩,
          ⟨"Other topic", ["profe/.dump/note2.opus"]⟩]⟩ ∧
    EngineResult.finished ⟨27, [⟨"Lecture notes",
          ["profe/.dump/note1.opus", "profe/.dump/note2.opus"]⟩]⟩
      ≠ EngineResult.finished ⟨27, [⟨"Lecture notes", ["profe/.dump/note1.opus"]⟩,
          ⟨"Other topic", ["profe/.dump/note2.opus"]⟩]⟩ :=
  ⟨by decide, by decide, by decide, by decide⟩

/-- C2 (amended): running the engine on a prefix, persisting, and then running
on the full log yields the same result (same final topic groups, or the same
crash) as a single run on the full log, provided the prefix's working list does
not end in a just-opened topic group that is still empty — that is, at the
split the working list is empty or its final topic already has a file. When the
prefix ends on an empty just-opened topic and the suffix starts with
attachments, the filter applied before persisting redirects those attachments
to the previous surviving topic, as the counterexample shows. -/
theorem C2_resumability_amended
    (st : ResumeState) (P S : List String) (ts : List Tema)
    (hle : st.lastLine ≤ P.length)
    (hne : st.lastLine ≠ P.length)
    (hS : S ≠ [])
    (hP : extendTemas st.temas (P.drop st.lastLine) = .ok ts)
    (hgood : GoodBase ts) :
    runEngine st P = .finished ⟨P.length, keepNonEmpty ts⟩ ∧
    runEngine ⟨P.length, keepNonEmpty ts⟩ (P ++ S) = runEngine st (P ++ S) := by
  have h1 : runEngine st P = .finished ⟨P.length, keepNonEmpty ts⟩ := by
    rw [runEngine, if_neg hne, hP]
  refine ⟨h1, ?_⟩
  have hlen : (P ++ S).length = P.length + S.length := by simp
  have hSpos : 0 < S.length := List.length_pos.mpr hS
  have hne1 : P.length ≠ (P ++ S).length := by rw [hlen]; omega
  have hne2 : st.lastLine ≠ (P ++ S).length := by
    have := Nat.lt_of_le_of_ne hle hne
    rw [hlen]; omega
  have hdropP : (P ++ S).drop P.length = S := List.drop_left P S
  have hdrop : (P ++ S).drop st.lastLine = P.drop st.lastLine ++ S :=
    drop_append_le _ _ _ hle
  have hext : extendTemas st.temas ((P ++ S).drop st.lastLine)
      = extendTemas ts S := by
    rw [hdrop, extendTemas_append, hP]
  have hagree := filter_agree S ts [] hgood
  simp only [List.append_nil] at hagree
  rw [runEngine, if_neg hne1, hdropP, runEngine, if_neg hne2, hext]
  rcases hagree with ⟨e, he1, he2⟩ | ⟨u1, u2, hu1, hu2, hu3⟩
  · rw [he1, he2]
  · rw [hu1, hu2]
    exact congrArg (fun l => EngineResult.finished ⟨(P ++ S).length, l⟩) hu3.symm

/-- C2, witness for the amended theorem: splitting the example log after an
attachment line (so the last topic of the prefix is nonempty) is equivalent to
the single run. -/
theorem C2_resumability_amended_witness :
    runEngine initialState exFirstTwo = .finished ⟨25, keepNonEmpty [temaLecture]⟩ ∧
    runEngine ⟨25, keepNonEmpty [temaLecture]⟩ (exFirstTwo ++ exLastTwo)
      = runEngine initialState (exFirstTwo ++ exLastTwo) :=
  C2_resumability_amended initialState exFirstTwo exLastTwo [temaLecture]
    (by decide) (by decide) (by decide) (by decide)
    (Or.inr ⟨[], temaLecture, rfl, by decide⟩)

/-- C3: for every attachment, the placement planner computes a prospective
destination filename equal to the original filename, except that when the
destination's extension is a convertible audio container (the `.opus`/`.ogg`
extensions the conversion loop globs for) the prospective filename carries the
post-conversion extension — the prospective path equals the very path the
transcoding collaborator will produce for the moved file; the attachment is
skipped precisely when a file already exists at that prospective destination
path, and otherwise the source (when it exists) is moved into the topic folder
under its original, unconverted name. -/
theorem C3_prospective_destination (title f : String) (fs : List String) :
    (isConvertible (pathJoin (pathJoin PROFE_SORTED_DIR title) (baseName f)) = false →
      prospectivePath title f
        = pathJoin (pathJoin PROFE_SORTED_DIR title) (baseName f)) ∧
    (isConvertible (pathJoin (pathJoin PROFE_SORTED_DIR title) (baseName f)) = true →
      prospectivePath title f
        = convertedPath (pathJoin (pathJoin PROFE_SORTED_DIR title) (baseName f))) ∧
    (prospectivePath title f ∈ fs → placeOne title fs f = .ok fs) ∧
    (prospectivePath title f ∉ fs → f ∈ fs →
      placeOne title fs f = .ok (moveTo fs f (pathJoin PROFE_SORTED_DIR title))) ∧
    (prospectivePath title f ∉ fs → f ∉ fs →
      placeOne title fs f = .error (.fileNotFound f)) := by
  refine ⟨?_, ?_, ?_, ?_, ?_⟩
  · intro h
    simp only [isConvertible, baseName, Bool.or_eq_false_iff,
      decide_eq_false_iff_not] at h
    simp only [prospectivePath, baseName]
    rw [if_neg (by simp [h.1, h.2])]
  · intro h
    simp only [isConvertible, baseName, Bool.or_eq_true,
      decide_eq_true_eq] at h
    rw [show (baseName f : String) = String.mk (baseNameCs f.data) from rfl,
      convertedPath_pathJoin _ _ (baseNameCs_no_slash f.data)]
    simp only [prospectivePath]
    rw [if_pos (by rcases h with h | h <;> simp [h])]
    rw [show wavChars = POST_CONVERSION_SUFFIX from rfl]
  · intro h
    rw [placeOne, if_pos h]
  · intro h1 h2
    rw [placeOne, if_neg h1, if_pos h2]
  · intro h1 h2
    rw [placeOne, if_neg h1, if_neg h2]

/-- C3, witness instantiating every conjunct at concrete inputs: a `.mp4`
attachment keeps its name, an `.opus` attachment's prospective path is the
post-conversion path of its moved file, and the skip, move and
missing-source cases of placement. -/
theorem C3_prospective_destination_witness :
    prospectivePath "T" "profe/.dump/a.mp4"
      = pathJoin (pathJoin PROFE_SORTED_DIR "T") (baseName "profe/.dump/a.mp4") ∧
    prospectivePath "T" "profe/.dump/a.opus"
      = convertedPath
          (pathJoin (pathJoin PROFE_SORTED_DIR "T") (baseName "profe/.dump/a.opus")) ∧
    placeOne "T" ["profe/sorted/T/a.wav"] "profe/.dump/a.opus"
      = .ok ["profe/sorted/T/a.wav"] ∧
    placeOne "T" ["profe/.dump/a.opus"] "profe/.dump/a.opus"
      = .ok (moveTo ["profe/.dump/a.opus"] "profe/.dump/a.opus"
          (pathJoin PROFE_SORTED_DIR "T")) ∧
    placeOne "T" [] "profe/.dump/a.opus"
      = .error (.fileNotFound "profe/.dump/a.opus") :=
  ⟨(C3_prospective_destination "T" "profe/.dump/a.mp4" []).1 (by decide),
   (C3_prospective_destination "T" "profe/.dump/a.opus" []).2.1 (by decide),
   (C3_prospective_destination "T" "profe/.dump/a.opus"
     ["profe/sorted/T/a.wav"]).2.2.1 (by decide),
   (C3_prospective_destination "T" "profe/.dump/a.opus"
     ["profe/.dump/a.opus"]).2.2.2.1 (by decide) (by decide),
   (C3_prospective_destination "T" "profe/.dump/a.opus" []).2.2.2.2
     (by decide) (by decide)⟩

/-- C4, counterexample. The claim says a stale source (missing on disk, with
the prospective destination also missing) is skipped and placement continues.
On the code, `shutil.move` raises `FileNotFoundError` and the remaining plan is
abandoned: here the second tema's file `b.opus`, present and placeable, is
never moved. -/
theorem C4_counterexample :
    placeTemas ["profe/.dump/b.opus"]
      [⟨"T", ["profe/.dump/a.opus"]⟩, ⟨"U", ["profe/.dump/b.opus"]⟩]
      = (["profe/.dump/b.opus"], some (.fileNotFound "profe/.dump/a.opus")) := by
  decide

/-- C4 (amended): if, during placement, an attachment's source file no longer
exists while its prospective destination also does not exist, `shutil.move`
raises `FileNotFoundError` and the run aborts: the remaining attachments and
topic groups are not processed. (Only when the prospective destination exists
is the attachment skipped and placement continued.) -/
theorem C4_stale_source_aborts (title f : String) (fs : List String)
    (rest : List String) (temas : List Tema)
    (h1 : prospectivePath title f ∉ fs) (h2 : f ∉ fs) :
    placeOne title fs f = .error (.fileNotFound f) ∧
    placeFiles title fs (f :: rest) = (fs, some (.fileNotFound f)) ∧
    placeTemas fs (⟨title, f :: rest⟩ :: temas) = (fs, some (.fileNotFound f)) := by
  have hone : placeOne title fs f = .error (.fileNotFound f) := by
    rw [placeOne, if_neg h1, if_neg h2]
  have hfiles : placeFiles title fs (f :: rest) = (fs, some (.fileNotFound f)) := by
    rw [placeFiles, hone]
  have htemas : placeTemas fs (⟨title, f :: rest⟩ :: temas)
      = match placeFiles title fs (f :: rest) with
        | (fs', none) => placeTemas fs' temas
        | (fs', some e) => (fs', some e) := rfl
  refine ⟨hone, hfiles, ?_⟩
  rw [htemas, hfiles]

/-- C4, witness for the amended theorem at a concrete input. -/
theorem C4_stale_source_aborts_witness :
    placeOne "T" [] "profe/.dump/a.opus"
      = .error (.fileNotFound "profe/.dump/a.opus") ∧
    placeFiles "T" [] ["profe/.dump/a.opus"]
      = ([], some (.fileNotFound "profe/.dump/a.opus")) ∧
    placeTemas [] [⟨"T", ["profe/.dump/a.opus"]⟩]
      = ([], some (.fileNotFound "profe/.dump/a.opus")) :=
  C4_stale_source_aborts "T" "profe/.dump/a.opus" [] [] [] (by decide) (by decide)

/-- C5, counterexample. The claim says the persisted `lastLineIndex` never
decreases and a run against a shorter log is a no-op. On the code, loading
`last_line = 5` against a three-line log bypasses the equality check, persists
`last_line = 3` — a decrease — and re-runs the filter and placement. -/
theorem C5_counterexample :
    runEngine ⟨5, [⟨"T", ["profe/.dump/f.opus"]⟩]⟩ ["a\n", "b\n", "c\n"]
      = .finished ⟨3, [⟨"T", ["profe/.dump/f.opus"]⟩]⟩ ∧ 3 < 5 :=
  ⟨by decide, by decide⟩

/-- C5 (amended): re-running against an unchanged log (resume index equal to
the line count) is a no-op, but against a strictly shorter log the run
proceeds with an empty new-line window and persists a resume state whose
`lastLineIndex` equals the new, smaller line count — so the persisted index can
decrease — together with the re-filtered accumulated topics, and then re-runs
placement over them. -/
theorem C5_shorter_log_amended (st : ResumeState) (lines : List String) :
    (st.lastLine = lines.length → runEngine st lines = .noNewData) ∧
    (lines.length < st.lastLine →
      runEngine st lines = .finished ⟨lines.length, keepNonEmpty st.temas⟩) := by
  constructor
  · intro h; rw [runEngine, if_pos h]
  · intro h
    have hne : st.lastLine ≠ lines.length := Nat.ne_of_gt h
    have hdrop : lines.drop st.lastLine = [] :=
      List.drop_eq_nil_of_le (Nat.le_of_lt h)
    rw [runEngine, if_neg hne, hdrop]
    rfl

/-- C5, witness for the amended theorem at concrete inputs. -/
theorem C5_shorter_log_amended_witness :
    runEngine ⟨3, []⟩ ["a\n", "b\n", "c\n"] = .noNewData ∧
    runEngine ⟨5, [⟨"T", ["profe/.dump/f.opus"]⟩]⟩ ["a\n"]
      = .finished ⟨1, keepNonEmpty [⟨"T", ["profe/.dump/f.opus"]⟩]⟩ :=
  ⟨(C5_shorter_log_amended ⟨3, []⟩ ["a\n", "b\n", "c\n"]).1 (by decide),
   (C5_shorter_log_amended ⟨5, [⟨"T", ["profe/.dump/f.opus"]⟩]⟩ ["a\n"]).2
     (by decide)⟩

/-- C6: for every input, when a run has completed and persisted (even if it
then crashed during placement), a second run over the same log leaves the
pickle and the files exactly as they are, and — whenever its inputs are
present — exits at the resume-index check with `noNewData`, before persisting
state or performing any placement. -/
theorem C6_second_run_noop (w w' : World)
    (h1 : (runScript w).outcome = .done ∨
      ∃ e, (runScript w).outcome = .placementCrash e)
    (hlines : w'.chatLines = w.chatLines)
    (hpk : w'.pickle = (runScript w).pickle) :
    (runScript w').pickle = w'.pickle ∧ (runScript w').files = w'.files ∧
    (w'.zipsPresent = true → w'.chatExists = true →
      (runScript w').outcome = .noNewData) := by
  obtain ⟨ts, hp, _⟩ := runScript_persist w h1
  apply runScript_nonew
  rw [hpk, hp, hlines]
  rfl

/-- C6, witness: the example world after its first run. -/
theorem C6_second_run_noop_witness :
    (runScript exSecondWorld).pickle = exSecondWorld.pickle ∧
    (runScript exSecondWorld).files = exSecondWorld.files ∧
    (exSecondWorld.zipsPresent = true → exSecondWorld.chatExists = true →
      (runScript exSecondWorld).outcome = .noNewData) :=
  C6_second_run_noop exRunWorld exSecondWorld (Or.inl (by decide))
    (by decide) (by decide)

/-- C7: whenever a run persists a topic list (completing placement or crashing
inside it), every topic group in the persisted list has a nonempty attachment
list: topics never followed by an attachment, including one opened by the final
processed line, are discarded by the end-of-run filter. -/
theorem C7_no_empty_topic (w : World) (saved : ResumeState) (t : Tema)
    (h1 : (runScript w).outcome = .done ∨
      ∃ e, (runScript w).outcome = .placementCrash e)
    (h2 : (runScript w).pickle = some saved)
    (h3 : t ∈ saved.temas) : t.files ≠ [] := by
  obtain ⟨ts, hp, _⟩ := runScript_persist w h1
  rw [hp] at h2
  injection h2 with h2
  rw [← h2] at h3
  have h4 : t ∈ keepNonEmpty ts := h3
  rw [keepNonEmpty] at h4
  have h5 := List.of_mem_filter h4
  intro hnil
  rw [hnil] at h5
  simp at h5

/-- C7, witness: the topic persisted by the example run has a file. -/
theorem C7_no_empty_topic_witness : temaLecture.files ≠ [] :=
  C7_no_empty_topic exRunWorld ⟨25, [temaLecture]⟩ temaLecture
    (Or.inl (by decide)) (by decide) (by decide)

/-- C8: classification is total and deterministic — every line yields exactly
one of the three outcomes of the (total) function `classify` — and a line whose
outer grammar matches as a marker line (marker present, message containing
`attached`, not `omitted`) but whose `<attached: NAME>` sub-pattern fails is
classified Non-match, and processing it leaves the working list unchanged: the
attachment is silently dropped. -/
theorem C8_classification_total (line : String) :
    ((∃ t, classify line = .content t) ∨ (∃ f, classify line = .attachment f) ∨
      classify line = .nonMatch) ∧
    (∀ p : ParsedLine, parsePattern line.data = some p → p.marker = true →
      containsSub attachedChars p.message = true →
      containsSub omittedChars p.message = false →
      extractAttached (stripWs p.message) = none →
      classify line = .nonMatch ∧ ∀ temas, processLine temas line = .ok temas) := by
  constructor
  · cases h : classify line with
    | content t => exact Or.inl ⟨t, rfl⟩
    | attachment f => exact Or.inr (Or.inl ⟨f, rfl⟩)
    | nonMatch => exact Or.inr (Or.inr rfl)
  · intro p hp hm ha ho hx
    have hcl : classify line = .nonMatch := by
      simp [classify, hp, hm, ha, ho, hx]
    exact ⟨hcl, fun temas => processLine_nonMatch temas hcl⟩

/-- C8, witness: a marker line with no closing `>` in its attachment marker is
dropped. -/
theorem C8_classification_total_witness :
    classify lineAttBroken = .nonMatch ∧
    processLine [] lineAttBroken = .ok [] := by
  have h := (C8_classification_total lineAttBroken).2
    ⟨true, "1/1/24".data, "10:00:20".data, "Ana".data, "‎<attached: broken".data⟩
    (by decide) rfl (by decide) (by decide) (by decide)
  exact ⟨h.1, h.2 []⟩

/-- C9: when no `*profe.zip` archive matches in the source directory, or the
chat file does not exist after extraction, the run exits at once with the
corresponding user-visible outcome and both the persisted resume state and the
files are left unchanged. -/
theorem C9_missing_input (w : World) :
    (w.zipsPresent = false → runScript w = ⟨.missingZips, w.pickle, w.files⟩) ∧
    (w.zipsPresent = true → w.chatExists = false →
      runScript w = ⟨.missingChat, w.pickle, w.files⟩) := by
  constructor
  · intro h; rw [runScript]; simp [h]
  · intro h1 h2; rw [runScript]; simp [h1, h2]

/-- C9, witness at two concrete worlds. -/
theorem C9_missing_input_witness :
    runScript ⟨false, false, [], none, []⟩ = ⟨.missingZips, none, []⟩ ∧
    runScript ⟨true, false, [], none, []⟩ = ⟨.missingChat, none, []⟩ :=
  ⟨(C9_missing_input ⟨false, false, [], none, []⟩).1 rfl,
   (C9_missing_input ⟨true, false, [], none, []⟩).2 rfl rfl⟩

/-- C10: (a) the grouping loop carries every loaded topic group forward
unchanged — except that the final loaded group may gain appended files — with
new groups only appended after them (`Carried`); (b) for a run that loads a
pickle and parses new lines, the persisted state is the whole filtered
accumulated list (prior groups included) and the run's placement pass is
computed over exactly that whole list; (c) placement relies solely on the
destination-existence check: an attachment is skipped precisely when its
prospective destination exists, and otherwise (its source existing) the move
is performed under the original name. -/
theorem C10_accumulated_state :
    (∀ prior window ts, extendTemas prior window = .ok ts → Carried prior ts) ∧
    (∀ w st ts, w.zipsPresent = true → w.chatExists = true →
      w.pickle = some st → st.lastLine ≠ w.chatLines.length →
      extendTemas st.temas (w.chatLines.drop st.lastLine) = .ok ts →
      (runScript w).pickle = some ⟨w.chatLines.length, keepNonEmpty ts⟩ ∧
      (runScript w).files = (placeTemas w.files (keepNonEmpty ts)).1) ∧
    (∀ title fs f,
      (prospectivePath title f ∈ fs → placeOne title fs f = .ok fs) ∧
      (prospectivePath title f ∉ fs → f ∈ fs →
        placeOne title fs f
          = .ok (moveTo fs f (pathJoin PROFE_SORTED_DIR title)))) := by
  refine ⟨?_, ?_, ?_⟩
  · intro prior window ts h
    exact extend_carried window prior prior ts (carried_refl prior) h
  · intro w st ts hz hc hpk hne hE
    exact runScript_run w st ts hz hc hpk hne hE
  · intro title fs f
    constructor
    · intro h; rw [placeOne, if_pos h]
    · intro h1 h2; rw [placeOne, if_neg h1, if_pos h2]

/-- C10, witness instantiating all three parts at concrete inputs. -/
theorem C10_accumulated_state_witness :
    Carried [temaLecture] [temaLecture] ∧
    ((runScript exResumedWorld).pickle
        = some ⟨25, keepNonEmpty [temaLecture]⟩ ∧
      (runScript exResumedWorld).files
        = (placeTemas exResumedWorld.files (keepNonEmpty [temaLecture])).1) ∧
    placeOne "T" ["profe/sorted/T/a.wav"] "profe/.dump/a.opus"
      = .ok ["profe/sorted/T/a.wav"] ∧
    placeOne "T" ["profe/.dump/a.opus"] "profe/.dump/a.opus"
      = .ok (moveTo ["profe/.dump/a.opus"] "profe/.dump/a.opus"
          (pathJoin PROFE_SORTED_DIR "T")) :=
  ⟨C10_accumulated_state.1 [temaLecture] [] [temaLecture] rfl,
   C10_accumulated_state.2.1 exResumedWorld ⟨23, []⟩ [temaLecture]
     rfl rfl rfl (by decide) (by decide),
   (C10_accumulated_state.2.2 "T" ["profe/sorted/T/a.wav"]
     "profe/.dump/a.opus").1 (by decide),
   (C10_accumulated_state.2.2 "T" ["profe/.dump/a.opus"]
     "profe/.dump/a.opus").2 (by decide) (by decide)⟩
